import Mathlib

set_option maxRecDepth 16384

/-!
Verification of the GitInspect analysis pipeline.

This file gives a shallow embedding of the orchestration core of the
GitInspect repository: the response extractors, the retry loop and the
fallback synthesis of `src/services/AIService.js`, and the metadata
formatter of `GitHubService`.  JavaScript strings are modelled as
`String`/`List Char`; the regular-expression searches of the source are
modelled by explicit leftmost-occurrence scanners; the network is
modelled by an attempt-indexed oracle; fallible code returns `Except`.
-/

/-! ## Generic leftmost-occurrence search

`findSubBy test cs` returns the least index `i` such that `test (cs.drop i)`
holds, scanning suffixes left to right.  This models the leftmost-match
discipline of JavaScript regular expressions for the patterns used by the
source (all of which are literal or near-literal searches). -/

def findSubBy (test : List Char → Bool) : List Char → Option Nat
  | [] => if test [] then some 0 else none
  | s@(_ :: rest) => if test s then some 0 else (findSubBy test rest).map (· + 1)

/-- Case-insensitive prefix test (models a `/i` literal match, ASCII folding). -/
def isPrefixCI : List Char → List Char → Bool
  | [], _ => true
  | _ :: _, [] => false
  | p :: ps, c :: cs => (p.toLower == c.toLower) && isPrefixCI ps cs

/-- Index of the first occurrence of the literal `pat` in `s` (case-sensitive). -/
def findSub (pat s : List Char) : Option Nat :=
  findSubBy (fun t => pat.isPrefixOf t) s

/-- Index of the first case-insensitive occurrence of the literal `pat` in `s`. -/
def findSubCI (pat s : List Char) : Option Nat :=
  findSubBy (isPrefixCI pat) s

/-- `occursAt pat s i` holds when the literal `pat` occurs in `s` at index `i`. -/
def occursAt (pat s : List Char) (i : Nat) : Bool :=
  pat.isPrefixOf (s.drop i)

/-! ## AIService response extractors (src/services/AIService.js) -/

/-- The three-backtick fence delimiter. -/
def fence3 : List Char := "```".toList

/-- The opening fence of an HTML-tagged block. -/
def fenceHtml : List Char := "```html".toList

/-- The opening fence of a plain-text-tagged block. -/
def fenceText : List Char := "```text".toList

/-- Leftmost match of the source regex shape for a lazily captured fenced
block such as `/```html([\s\S]*?)```/`: find the first opening fence, then
the first closing fence after it, and return the interior.  (No opening
fence can be left unclosed while a later one matches, because every opening
fence contains the closing delimiter as a prefix, so taking the first
opening fence is exactly the leftmost-match rule.) -/
def fencedExtract (fenceTag : List Char) (cs : List Char) : Option (List Char) :=
  match findSub fenceTag cs with
  | none => none
  | some i =>
    let rest := (cs.drop i).drop fenceTag.length
    match findSub fence3 rest with
    | none => none
    | some j => some (rest.take j)

/-- The literal class marker searched by the fallback regex of
`extractHtmlContent`. -/
def classMarker : List Char := "class=\"architecture-diagram\"".toList

/-- One anchored attempt of the fallback regex
`/<div[^>]*class="architecture-diagram"[^>]*>([\s\S]*?)<\/div>/` at the head
of `s`: a literal `<div`, a `>`-free attribute region that contains the
class marker, the first following `>`, then a lazy body up to the first
`</div>`.  Returns the whole match (`fallbackMatch[0]` in the source). -/
def checkDivAt (s : List Char) : Option (List Char) :=
  if ("<div".toList).isPrefixOf s then
    let afterTag := s.drop 4
    let attrs := afterTag.takeWhile (fun c => c != '>')
    match afterTag.drop attrs.length with
    | '>' :: body =>
      if (findSub classMarker attrs).isSome then
        match findSub ("</div>".toList) body with
        | some k => some (("<div".toList) ++ attrs ++ '>' :: (body.take k ++ "</div>".toList))
        | none => none
      else none
    | _ => none
  else none

/-- Leftmost match of the fallback div regex: try `checkDivAt` at every
suffix, left to right. -/
def divFallback (cs : List Char) : Option (List Char) :=
  match findSubBy (fun s => (checkDivAt s).isSome) cs with
  | some i => checkDivAt (cs.drop i)
  | none => none

/-- JavaScript whitespace for `trim` (the characters relevant to this code
base: space, tab, newline, carriage return, vertical tab, form feed). -/
def isJsSpace (c : Char) : Bool :=
  c == ' ' || c == '\t' || c == '\n' || c == '\r' || c == '\x0b' || c == '\x0c'

/-- Model of JavaScript `String.prototype.trim`. -/
def trimChars (l : List Char) : List Char :=
  ((l.dropWhile isJsSpace).reverse.dropWhile isJsSpace).reverse

/-- `extractHtmlContent` from the source: the trimmed interior of the first
fenced HTML block, else the whole first match of the architecture-diagram
div regex, else `null` (modelled as `none`). -/
def extractHtmlContent (content : String) : Option String :=
  match fencedExtract fenceHtml content.toList with
  | some interior => some (String.mk (trimChars interior))
  | none => (divFallback content.toList).map (fun l => String.mk l)

/-- `extractTextSummary` from the source: the trimmed interior of the first
fenced text block, else the first line of the raw text, else (when that
first line is empty, hence falsy) the literal "Technical summary". -/
def extractTextSummary (content : String) : String :=
  match fencedExtract fenceText content.toList with
  | some interior => String.mk (trimChars interior)
  | none =>
    let firstLine := content.toList.takeWhile (fun c => c != '\n')
    if firstLine.isEmpty then "Technical summary" else String.mk firstLine

/-- The literal searched case-insensitively by the recommendations regex
`/Recommandations?.*([\s\S]*?)(?=\n\n|$)/i` — note the French spelling
`Recommandation` in the source. -/
def recsHeading : List Char := "Recommandation".toList

/-- The lazy capture `([\s\S]*?)(?=\n\n|$)`: the shortest prefix ending
where a blank line (`\n\n`) starts, or the whole rest of the input. -/
def captureUpToBlank : List Char → List Char
  | [] => []
  | [a] => [a]
  | a :: b :: rest =>
    if a == '\n' && b == '\n' then []
    else a :: captureUpToBlank (b :: rest)

/-- JavaScript `split('\n')`: segments between newline characters,
including empty ones. -/
def splitOnNl : List Char → List (List Char)
  | [] => [[]]
  | c :: rest =>
    if c == '\n' then [] :: splitOnNl rest
    else
      match splitOnNl rest with
      | [] => [[c]]
      | l :: ls => (c :: l) :: ls

/-- `r.replace(/^- /, '')`: strip one leading "- " marker if present. -/
def stripLeadingDash (l : List Char) : List Char :=
  if ("- ".toList).isPrefixOf l then l.drop 2 else l

/-- The post-processing chain applied to the captured recommendations text:
split on newlines, drop lines that are empty after trimming, strip a
leading "- " and trim each, keep at most the first 3. -/
def processRecLines (cap : List Char) : List String :=
  (((splitOnNl cap).filter (fun r => (trimChars r).length != 0)).map
    (fun r => String.mk (trimChars (stripLeadingDash r)))).take 3

/-- The text the regex hands to the lazy capture once the heading matched at
index `i`: `Recommandations?.*` greedily consumes the heading literal and
the remainder of its line (`.` does not cross newlines), so the capture
starts at the line break following the heading. -/
def recTailAt (cs : List Char) (i : Nat) : List Char :=
  let afterHeading := cs.drop (i + recsHeading.length)
  afterHeading.drop ((afterHeading.takeWhile (fun c => c != '\n')).length)

/-- `getDefaultRecommendations` from the source. -/
def getDefaultRecommendations : List String :=
  [ "Documentation: Ajouter des commentaires pour les fonctions principales",
    "Tests: Implémenter des tests unitaires pour les modules critiques",
    "Optimisation: Analyser les performances des composants clés" ]

/-- `extractRecommendations` from the source. -/
def extractRecommendations (content : String) : List String :=
  match findSubCI recsHeading content.toList with
  | none => getDefaultRecommendations
  | some i => processRecLines (captureUpToBlank (recTailAt content.toList i))

/-! ## AIService diagram wrapping and fallback synthesis -/

/-- The fixed decorative container text before the diagram content in
`wrapDiagram`. -/
def wrapPre : String :=
  "\n      <div class=\"architecture-diagram\" style=\"\n        font-family: \x27Space Grotesk\x27, sans-serif;\n        background: rgba(42, 42, 58, 0.8);\n        border-radius: 16px;\n        padding: 2rem;\n        margin: 1rem 0;\n        width: 100%;\n        box-sizing: border-box;\n        border: 1px solid rgba(255, 255, 255, 0.1);\n        overflow-x: auto;\n      \">\n        "

/-- The fixed decorative container text after the diagram content in
`wrapDiagram`. -/
def wrapPost : String := "\n      </div>\n    "

/-- The fixed warning-panel text before the message in
`generateFallbackDiagram`. -/
def fallbackPre : String :=
  "\n      <div class=\"diagram-fallback\" style=\"\n        padding: 2rem;\n        text-align: center;\n        background: rgba(255, 68, 168, 0.05);\n        border-radius: 12px;\n        border: 1px dashed var(--accent);\n        width: 100%;\n        box-sizing: border-box;\n      \">\n        <svg width=\"48\" height=\"48\" viewBox=\"0 0 24 24\" fill=\"none\" stroke=\"var(--accent)\" stroke-width=\"2\">\n          <path d=\"M10.29 3.86L1.82 18a2 2 0 0 0 1.71 3h16.94a2 2 0 0 0 1.71-3L13.71 3.86a2 2 0 0 0-3.42 0z\"></path>\n          <line x1=\"12\" y1=\"9\" x2=\"12\" y2=\"13\"></line>\n          <line x1=\"12\" y1=\"17\" x2=\"12.01\" y2=\"17\"></line>\n        </svg>\n        <p style=\"color: var(--accent); margin-top: 1rem; width: 100%;\">"

/-- The fixed warning-panel text after the message in
`generateFallbackDiagram`. -/
def fallbackPost : String := "</p>\n      </div>\n    "

/-- `generateFallbackDiagram` from the source: the warning panel with the
message interpolated as body text. -/
def generateFallbackDiagram (message : String) : String :=
  fallbackPre ++ message ++ fallbackPost

/-- `wrapDiagram` from the source: a falsy argument (absent diagram, or the
empty string) yields the "No architecture diagram generated" fallback
panel; otherwise the content is wrapped in the decorative container. -/
def wrapDiagram (content : Option String) : String :=
  match content with
  | none => generateFallbackDiagram "No architecture diagram generated"
  | some c =>
    if c = "" then generateFallbackDiagram "No architecture diagram generated"
    else wrapPre ++ c ++ wrapPost

/-- `getFallbackRecommendations` from the source. -/
def getFallbackRecommendations : List String :=
  [ "Verify API configuration",
    "Check repository accessibility",
    "Retry analysis later" ]

/-! ## AIService completion parsing, retry loop and orchestration -/

/-- The parsed completion produced by `parseAIResponse`. -/
structure ParsedResponse where
  rawContent : String
  diagram : Option String
  summary : String
deriving DecidableEq

/-- `parseAIResponse` from the source.  The body of a successful HTTP
response is modelled by its assistant-message content field:
`none` when `data.choices?.[0]?.message?.content` is missing, `some c`
when present.  A missing or empty (falsy) content throws
"Invalid AI response format". -/
def parseAIResponse (body : Option String) : Except String ParsedResponse :=
  match body with
  | none => .error "Invalid AI response format"
  | some content =>
    if content = "" then .error "Invalid AI response format"
    else .ok { rawContent := content
               diagram := extractHtmlContent content
               summary := extractTextSummary content }

deriving instance DecidableEq for Except

/-- The observable behaviour of one retry sequence: the final outcome, the
number of attempts performed, and the sleeps awaited between attempts (in
milliseconds). -/
structure RetryTrace where
  result : Except String ParsedResponse
  attempts : Nat
  sleeps : List Nat
deriving DecidableEq

/-- One attempt of `fetchWithRetry`'s `try` block, with the network
modelled as an attempt-indexed oracle: `.error e` is a non-2xx status,
transport error or per-attempt timeout abort (all of which throw in the
source), and `.ok body` is a successful (2xx) response whose
assistant-message content field is `body`; a successful response is then
fed to `parseAIResponse` inside the same `try`. -/
def attemptOnce (resp : Nat → Except String (Option String)) (n : Nat) :
    Except String ParsedResponse :=
  match resp n with
  | .error e => .error e
  | .ok body => parseAIResponse body

/-- The recursion of `fetchWithRetry`: on any failure, if
`attempt >= maxRetries` the error propagates, otherwise the code sleeps
`retryDelay * attempt` and retries with `attempt + 1`.  `remaining` is
`maxRetries - attempt`, so `remaining = 0` exactly when
`attempt >= maxRetries`. -/
def fetchWithRetryGo (resp : Nat → Except String (Option String))
    (retryDelay attempt : Nat) : Nat → RetryTrace
  | 0 =>
    match attemptOnce resp attempt with
    | .ok v => { result := .ok v, attempts := 1, sleeps := [] }
    | .error e => { result := .error e, attempts := 1, sleeps := [] }
  | remaining + 1 =>
    match attemptOnce resp attempt with
    | .ok v => { result := .ok v, attempts := 1, sleeps := [] }
    | .error _ =>
      let t := fetchWithRetryGo resp retryDelay (attempt + 1) remaining
      { result := t.result
        attempts := t.attempts + 1
        sleeps := retryDelay * attempt :: t.sleeps }

/-- `fetchWithRetry` from the source: attempts start at 1 and the budget is
`maxRetries`. -/
def fetchWithRetry (resp : Nat → Except String (Option String))
    (maxRetries retryDelay : Nat) : RetryTrace :=
  fetchWithRetryGo resp retryDelay 1 (maxRetries - 1)

/-- Repository metadata as consumed by `analyzeRepository` (the fields read
when building the prompt; only the object's presence matters for
validation). -/
structure RepoInfo where
  name : Option String
  description : Option String
  language : Option String
  htmlUrl : Option String
deriving DecidableEq

/-- `validateApiKey` from the source: a falsy key (absent, modelled as the
empty string) throws. -/
def validateApiKey (apiKey : String) : Except String Unit :=
  if apiKey = "" then .error "DeepSeek API key not configured" else .ok ()

/-- `validateRepoInfo` from the source: a falsy or non-object argument
(modelled as `none`) throws. -/
def validateRepoInfo (repoInfo : Option RepoInfo) : Except String Unit :=
  match repoInfo with
  | none => .error "Invalid repository information"
  | some _ => .ok ()

/-- The final result object of `analyzeRepository`.  `rawAnalysis` is left
undefined by `generateFallbackResponse` in the source, modelled as
`none`. -/
structure AnalysisResult where
  summary : String
  htmlSchema : String
  recommendations : List String
  diagramSource : Bool
  rawAnalysis : Option String
deriving DecidableEq

/-- `formatAnalysisResults` from the source.  Note that `diagramSource` is
the literal `true` on this (success) path, regardless of whether a diagram
was extracted. -/
def formatAnalysisResults (analysis : ParsedResponse) : AnalysisResult :=
  { summary := analysis.summary
    htmlSchema := wrapDiagram analysis.diagram
    recommendations := extractRecommendations analysis.rawContent
    diagramSource := true
    rawAnalysis := some analysis.rawContent }

/-- `generateFallbackResponse` from the source. -/
def generateFallbackResponse (message : String) : AnalysisResult :=
  { summary := "Analysis failed: " ++ message
    htmlSchema := generateFallbackDiagram message
    recommendations := getFallbackRecommendations
    diagramSource := false
    rawAnalysis := none }

/-- The `try` block of `analyzeRepository`: validate the key and the
metadata object, run the retry loop, format the results.  (The prompt
built in between is a pure string template that cannot throw and does not
influence the oracle-modelled network outcome.) -/
def analyzeRepositoryE (apiKey : String) (repoInfo : Option RepoInfo)
    (resp : Nat → Except String (Option String)) (maxRetries retryDelay : Nat) :
    Except String AnalysisResult :=
  match validateApiKey apiKey with
  | .error e => .error e
  | .ok _ =>
    match validateRepoInfo repoInfo with
    | .error e => .error e
    | .ok _ =>
      match (fetchWithRetry resp maxRetries retryDelay).result with
      | .error e => .error e
      | .ok analysis => .ok (formatAnalysisResults analysis)

/-- `analyzeRepository` from the source: any error from the `try` block is
caught and converted by `generateFallbackResponse`; the function itself
never throws. -/
def analyzeRepository (apiKey : String) (repoInfo : Option RepoInfo)
    (resp : Nat → Except String (Option String)) (maxRetries retryDelay : Nat) :
    AnalysisResult :=
  match analyzeRepositoryE apiKey repoInfo resp maxRetries retryDelay with
  | .ok r => r
  | .error e => generateFallbackResponse e

/-! ## GitHubService metadata formatting (src/services/GitHubService.js) -/

/-- The upstream license object (only `spdx_id` is read). -/
structure GhLicense where
  spdxId : Option String
deriving DecidableEq

/-- The upstream repository payload fields read by `formatRepoData`. -/
structure GhRepoData where
  name : String
  ownerLogin : String
  description : Option String
  htmlUrl : String
  stargazersCount : Nat
  forksCount : Nat
  openIssuesCount : Nat
  language : Option String
  license : Option GhLicense
  createdAt : String
  updatedAt : String
  size : Nat
  topics : Option (List String)
deriving DecidableEq

/-- The normalized metadata object built by `formatRepoData`. -/
structure RepoMetadata where
  name : String
  owner : String
  description : Option String
  url : String
  stars : Nat
  forks : Nat
  issues : Nat
  language : Option String
  license : Option String
  createdAt : String
  updatedAt : String
  size : String
  topics : List String
deriving DecidableEq

/-- The string `(size / 1024).toFixed(1) + " MB"` of the source.  The
upstream size is an integer, so the IEEE division by 1024 is exact and
`toFixed(1)` rounds the exact rational `size/1024` to the nearest tenth,
ties toward the larger value: the tenths digit count is
`(10 * size + 512) / 1024` (integer division). -/
def sizeMbString (size : Nat) : String :=
  let tenths := (10 * size + 512) / 1024
  toString (tenths / 10) ++ "." ++ toString (tenths % 10) ++ " MB"

/-- `GitHubService.formatRepoData` from the source.  `localeDate` models
the environment-dependent `new Date(x).toLocaleDateString()` as an
abstract formatter. -/
def formatRepoData (localeDate : String → String) (data : GhRepoData) : RepoMetadata :=
  { name := data.name
    owner := data.ownerLogin
    description := data.description
    url := data.htmlUrl
    stars := data.stargazersCount
    forks := data.forksCount
    issues := data.openIssuesCount
    language := data.language
    license := data.license.bind (fun l => l.spdxId)
    createdAt := localeDate data.createdAt
    updatedAt := localeDate data.updatedAt
    size := sizeMbString data.size
    topics := data.topics.getD [] }

/-- A concrete upstream payload used to evaluate `formatRepoData` (its
`size` field is 2048 upstream units). -/
def sampleRepoPayload : GhRepoData :=
  { name := "r"
    ownerLogin := "o"
    description := none
    htmlUrl := "u"
    stargazersCount := 1
    forksCount := 2
    openIssuesCount := 3
    language := none
    license := none
    createdAt := "2020-01-01"
    updatedAt := "2020-01-02"
    size := 2048
    topics := none }


/-! ## Lemmas about the leftmost-occurrence search -/

theorem findSubBy_some_test {test : List Char → Bool} {cs : List Char} {i : Nat}
    (h : findSubBy test cs = some i) : test (cs.drop i) = true := by
  induction cs generalizing i with
  | nil =>
    unfold findSubBy at h
    by_cases ht : test []
    · simp [ht] at h; subst h; simpa using ht
    · simp [ht] at h
  | cons c rest ih =>
    unfold findSubBy at h
    by_cases ht : test (c :: rest)
    · simp [ht] at h; subst h; simpa using ht
    · simp [ht] at h
      obtain ⟨j, hj, rfl⟩ := h
      simpa using ih hj

theorem findSubBy_some_min {test : List Char → Bool} {cs : List Char} {i : Nat}
    (h : findSubBy test cs = some i) : ∀ j, j < i → test (cs.drop j) = false := by
  induction cs generalizing i with
  | nil =>
    unfold findSubBy at h
    by_cases ht : test []
    · simp [ht] at h; subst h; omega
    · simp [ht] at h
  | cons c rest ih =>
    unfold findSubBy at h
    by_cases ht : test (c :: rest)
    · simp [ht] at h; subst h; omega
    · simp [ht] at h
      obtain ⟨j0, hj0, rfl⟩ := h
      intro j hj
      cases j with
      | zero => simpa using (Bool.eq_false_iff.mpr ht)
      | succ j2 =>
        have := ih hj0 j2 (by omega)
        simpa using this

theorem findSubBy_none {test : List Char → Bool} {cs : List Char}
    (h : findSubBy test cs = none) : ∀ j, test (cs.drop j) = false := by
  induction cs with
  | nil =>
    unfold findSubBy at h
    by_cases ht : test []
    · simp [ht] at h
    · intro j; simpa using (Bool.eq_false_iff.mpr ht)
  | cons c rest ih =>
    unfold findSubBy at h
    by_cases ht : test (c :: rest)
    · simp [ht] at h
    · simp [ht] at h
      intro j
      cases j with
      | zero => simpa using (Bool.eq_false_iff.mpr ht)
      | succ j2 => simpa using ih h j2

theorem findSubBy_first {test : List Char → Bool} {cs : List Char} {p : Nat}
    (hp : test (cs.drop p) = true) (hmin : ∀ j, j < p → test (cs.drop j) = false) :
    findSubBy test cs = some p := by
  induction cs generalizing p with
  | nil =>
    cases p with
    | zero => unfold findSubBy; simpa using hp
    | succ q =>
      have h0 := hmin 0 (by omega)
      simp at h0 hp
      rw [hp] at h0
      cases h0
  | cons c rest ih =>
    cases p with
    | zero =>
      unfold findSubBy
      simpa using hp
    | succ q =>
      have h0 := hmin 0 (by omega)
      unfold findSubBy
      simp at h0
      simp [h0]
      apply ih
      · simpa using hp
      · intro j hj
        have := hmin (j + 1) (by omega)
        simpa using this

theorem findSubBy_isSome {test : List Char → Bool} {cs : List Char} {p : Nat}
    (hp : test (cs.drop p) = true) : (findSubBy test cs).isSome = true := by
  cases hfind : findSubBy test cs with
  | none => rw [findSubBy_none hfind p] at hp; cases hp
  | some i => rfl


/-! ## Helper lemmas: prefixes, appends, takeWhile -/

theorem isPrefixOf_append_self (a b : List Char) : a.isPrefixOf (a ++ b) = true := by
  rw [List.isPrefixOf_iff_prefix]
  exact List.prefix_append a b

theorem exists_of_isPrefixOf {a b : List Char} (h : a.isPrefixOf b = true) :
    ∃ t, b = a ++ t := by
  rw [List.isPrefixOf_iff_prefix] at h
  obtain ⟨t, ht⟩ := h
  exact ⟨t, ht.symm⟩

theorem isPrefixCI_append {p a b : List Char} (h : isPrefixCI p a = true) :
    isPrefixCI p (a ++ b) = true := by
  induction p generalizing a with
  | nil => simp [isPrefixCI]
  | cons x xs ih =>
    cases a with
    | nil => simp [isPrefixCI] at h
    | cons y ys =>
      simp only [List.cons_append, isPrefixCI, Bool.and_eq_true] at h ⊢
      exact ⟨h.1, ih h.2⟩

theorem takeWhile_append_cons {p : Char → Bool} {a : List Char} {b : Char} {t : List Char}
    (hall : ∀ c ∈ a, p c = true) (hb : p b = false) :
    (a ++ b :: t).takeWhile p = a := by
  induction a with
  | nil => simp [List.takeWhile_cons, hb]
  | cons x xs ih =>
    have hx : p x = true := hall x (by simp)
    simp only [List.cons_append, List.takeWhile_cons, hx, if_true]
    rw [ih (fun c hc => hall c (by simp [hc]))]

/-! ## Helper lemmas: fenced-block extraction -/

theorem fencedExtract_of_decomp {fenceTag pre mid post cs : List Char}
    (hcs : cs = pre ++ fenceTag ++ mid ++ fence3 ++ post)
    (hfirst : ∀ j, j < pre.length → occursAt fenceTag cs j = false)
    (hmid : ∀ j, j < mid.length → occursAt fence3 (mid ++ fence3 ++ post) j = false) :
    fencedExtract fenceTag cs = some mid := by
  have hdrop : cs.drop pre.length = fenceTag ++ (mid ++ fence3 ++ post) := by
    have h2 : cs = pre ++ (fenceTag ++ (mid ++ fence3 ++ post)) := by
      simp [hcs, List.append_assoc]
    rw [h2, List.drop_left]
  have h1 : findSub fenceTag cs = some pre.length := by
    apply findSubBy_first
    · rw [hdrop]; exact isPrefixOf_append_self _ _
    · intro j hj
      simpa [occursAt] using hfirst j hj
  have hrest : (cs.drop pre.length).drop fenceTag.length = mid ++ fence3 ++ post := by
    rw [hdrop, List.drop_left]
  have h3 : findSub fence3 (mid ++ fence3 ++ post) = some mid.length := by
    apply findSubBy_first
    · have : (mid ++ fence3 ++ post).drop mid.length = fence3 ++ post := by
        rw [List.append_assoc, List.drop_left]
      rw [this]
      exact isPrefixOf_append_self _ _
    · intro j hj
      simpa [occursAt] using hmid j hj
  have htake : (mid ++ fence3 ++ post).take mid.length = mid := by
    rw [List.append_assoc, List.take_left]
  unfold fencedExtract
  rw [h1]
  simp only [hrest, h3, htake]

theorem fencedExtract_some_decomp {fenceTag cs r : List Char}
    (h : fencedExtract fenceTag cs = some r) :
    ∃ pre mid post, cs = pre ++ fenceTag ++ mid ++ fence3 ++ post ∧ r = mid := by
  unfold fencedExtract at h
  cases h1 : findSub fenceTag cs with
  | none => rw [h1] at h; simp at h
  | some i =>
    rw [h1] at h
    cases h2 : findSub fence3 ((cs.drop i).drop fenceTag.length) with
    | none => simp only [h2] at h; exact Option.noConfusion h
    | some j =>
      simp only [h2, Option.some.injEq] at h
      obtain ⟨suffix, hsuffix⟩ := exists_of_isPrefixOf (findSubBy_some_test h1)
      have hrest : (cs.drop i).drop fenceTag.length = suffix := by
        rw [hsuffix, List.drop_left]
      rw [hrest] at h h2
      obtain ⟨post2, hpost2⟩ := exists_of_isPrefixOf (findSubBy_some_test h2)
      refine ⟨cs.take i, suffix.take j, post2, ?_, ?_⟩
      · conv_lhs => rw [← List.take_append_drop i cs]
        rw [hsuffix]
        conv_lhs => rw [← List.take_append_drop j suffix]
        rw [hpost2]
        simp [List.append_assoc]
      · exact h.symm

theorem fencedExtract_none_of_noDecomp {fenceTag cs : List Char}
    (h : ∀ pre mid post : List Char, cs ≠ pre ++ fenceTag ++ mid ++ fence3 ++ post) :
    fencedExtract fenceTag cs = none := by
  cases hf : fencedExtract fenceTag cs with
  | none => rfl
  | some r =>
    obtain ⟨pre, mid, post, hcs, _⟩ := fencedExtract_some_decomp hf
    exact absurd hcs (h pre mid post)

/-! ## Helper lemmas: the fallback div regex -/

theorem mem_takeWhile_pred {p : Char → Bool} {l : List Char} {c : Char}
    (h : c ∈ l.takeWhile p) : p c = true := by
  induction l with
  | nil => simp [List.takeWhile] at h
  | cons x xs ih =>
    rw [List.takeWhile_cons] at h
    by_cases hx : p x = true
    · simp [hx] at h
      rcases h with h | h
      · subst h; exact hx
      · exact ih h
    · simp [Bool.eq_false_iff.mpr hx] at h

theorem drop_takeWhile_length {p : Char → Bool} (l : List Char) :
    l.drop (l.takeWhile p).length = l.dropWhile p := by
  induction l with
  | nil => simp
  | cons x xs ih =>
    rw [List.takeWhile_cons, List.dropWhile_cons]
    by_cases hx : p x = true
    · simpa [hx] using ih
    · simp [Bool.eq_false_iff.mpr hx]

theorem checkDivAt_eval {attrs body : List Char}
    (hattrs : ∀ c ∈ attrs, (c != '>') = true)
    (hmarker : (findSub classMarker attrs).isSome = true) :
    checkDivAt ("<div".toList ++ attrs ++ '>' :: body) =
      (match findSub ("</div>".toList) body with
       | some k => some (("<div".toList) ++ attrs ++ '>' :: (body.take k ++ "</div>".toList))
       | none => none) := by
  have hassoc : "<div".toList ++ attrs ++ '>' :: body =
      "<div".toList ++ (attrs ++ '>' :: body) := by simp [List.append_assoc]
  have hpre : ("<div".toList).isPrefixOf ("<div".toList ++ attrs ++ '>' :: body) = true := by
    rw [hassoc]; exact isPrefixOf_append_self _ _
  have hdrop4 : ("<div".toList ++ attrs ++ '>' :: body).drop 4 = attrs ++ '>' :: body := by
    rw [hassoc]; exact List.drop_left' rfl
  have htw : (attrs ++ '>' :: body).takeWhile (fun c => c != '>') = attrs :=
    takeWhile_append_cons hattrs (by rfl)
  have hdropa : (attrs ++ '>' :: body).drop attrs.length = '>' :: body := List.drop_left _ _
  unfold checkDivAt
  rw [hpre]
  simp only [if_true, hdrop4, htw, hdropa, hmarker]

theorem checkDivAt_some_decomp {s r : List Char} (h : checkDivAt s = some r) :
    ∃ attrs inner post2,
      s = "<div".toList ++ attrs ++ '>' :: (inner ++ "</div>".toList ++ post2) ∧
      (∀ c ∈ attrs, (c != '>') = true) ∧
      (∃ a b, attrs = a ++ classMarker ++ b) ∧
      r = "<div".toList ++ attrs ++ '>' :: (inner ++ "</div>".toList) := by
  simp only [checkDivAt] at h
  split at h
  case isFalse => exact Option.noConfusion h
  case isTrue hpre =>
    split at h
    case h_2 => exact Option.noConfusion h
    case h_1 body heq =>
      split at h
      case isFalse => exact Option.noConfusion h
      case isTrue hmarker =>
        split at h
        case h_2 => exact Option.noConfusion h
        case h_1 k hk =>
          rw [Option.some.injEq] at h
          obtain ⟨t, ht⟩ := exists_of_isPrefixOf hpre
          have hdrop4 : s.drop 4 = t := by rw [ht]; exact List.drop_left' rfl
          rw [hdrop4] at heq h hmarker
          have hbody : t.dropWhile (fun c => c != '>') = '>' :: body := by
            rw [← drop_takeWhile_length]; exact heq
          have ht2 : t = t.takeWhile (fun c => c != '>') ++ '>' :: body := by
            conv_lhs => rw [← List.takeWhile_append_dropWhile (fun c => c != '>') t]
            rw [hbody]
          obtain ⟨midx, hmidx⟩ := Option.isSome_iff_exists.mp hmarker
          obtain ⟨mb, hmb⟩ := exists_of_isPrefixOf (findSubBy_some_test hmidx)
          obtain ⟨post2, hpost2⟩ := exists_of_isPrefixOf (findSubBy_some_test hk)
          have hb2 : body = body.take k ++ "</div>".toList ++ post2 := by
            conv_lhs => rw [← List.take_append_drop k body]
            rw [hpost2, List.append_assoc]
          refine ⟨t.takeWhile (fun c => c != '>'), body.take k, post2, ?_, ?_, ?_, ?_⟩
          · rw [ht]
            conv_rhs => rw [← hb2]
            rw [List.append_assoc, ← ht2]
          · intro c hc; exact mem_takeWhile_pred (p := fun x => x != '>') hc
          · refine ⟨(t.takeWhile (fun c => c != '>')).take midx, mb, ?_⟩
            conv_lhs => rw [← List.take_append_drop midx (t.takeWhile (fun c => c != '>'))]
            rw [hmb, List.append_assoc]
          · exact h.symm

theorem divFallback_of_first {cs r : List Char} {p : Nat}
    (hp : checkDivAt (cs.drop p) = some r)
    (hmin : ∀ j, j < p → checkDivAt (cs.drop j) = none) :
    divFallback cs = some r := by
  have h1 : findSubBy (fun s => (checkDivAt s).isSome) cs = some p := by
    apply findSubBy_first
    · simp [hp]
    · intro j hj; simp [hmin j hj]
  unfold divFallback
  rw [h1]
  exact hp

theorem divFallback_some_exists {cs r : List Char} (h : divFallback cs = some r) :
    ∃ j, checkDivAt (cs.drop j) = some r := by
  unfold divFallback at h
  cases h1 : findSubBy (fun s => (checkDivAt s).isSome) cs with
  | none => rw [h1] at h; exact Option.noConfusion h
  | some i => rw [h1] at h; exact ⟨i, h⟩

theorem divFallback_none_of_noDecomp {cs : List Char}
    (h : ∀ pre attrs inner post2 : List Char,
      (∀ c ∈ attrs, (c != '>') = true) →
      (∃ a b, attrs = a ++ classMarker ++ b) →
      cs ≠ pre ++ ("<div".toList ++ attrs ++ '>' :: (inner ++ "</div>".toList ++ post2))) :
    divFallback cs = none := by
  cases hdf : divFallback cs with
  | none => rfl
  | some r =>
    obtain ⟨j, hj⟩ := divFallback_some_exists hdf
    obtain ⟨attrs, inner, post2, hs, hattrs, hmarker, _⟩ := checkDivAt_some_decomp hj
    have : cs = cs.take j ++ ("<div".toList ++ attrs ++ '>' :: (inner ++ "</div>".toList ++ post2)) := by
      conv_lhs => rw [← List.take_append_drop j cs]
      rw [hs]
    exact absurd this (h (cs.take j) attrs inner post2 hattrs hmarker)

/-! ## Helper lemmas: the recommendations capture and processing -/

theorem captureUpToBlank_stops {front post : List Char}
    (hfront : ∀ j, j < front.length →
      occursAt ['\n', '\n'] (front ++ '\n' :: '\n' :: post) j = false) :
    captureUpToBlank (front ++ '\n' :: '\n' :: post) = front := by
  induction front with
  | nil => simp [captureUpToBlank]
  | cons c front2 ih =>
    have h0 := hfront 0 (by simp)
    have hcond : captureUpToBlank ((c :: front2) ++ '\n' :: '\n' :: post) =
        c :: captureUpToBlank (front2 ++ '\n' :: '\n' :: post) := by
      cases front2 with
      | nil =>
        by_cases hc : c = '\n'
        · subst hc; simp [occursAt, List.isPrefixOf] at h0
        · simp [captureUpToBlank, hc]
      | cons d front3 =>
        by_cases hc : c = '\n'
        · by_cases hd : d = '\n'
          · subst hc; subst hd; simp [occursAt, List.isPrefixOf] at h0
          · simp [captureUpToBlank, hd]
        · simp [captureUpToBlank, hc]
    rw [hcond]
    rw [ih (fun j hj => by
      have := hfront (j + 1) (by simp; omega)
      simpa [occursAt] using this)]

theorem captureUpToBlank_all {l : List Char}
    (h : ∀ j, occursAt ['\n', '\n'] l j = false) :
    captureUpToBlank l = l := by
  induction l with
  | nil => rfl
  | cons c rest ih =>
    have h0 := h 0
    cases rest with
    | nil => rfl
    | cons d rest2 =>
      have htail : captureUpToBlank (d :: rest2) = d :: rest2 :=
        ih (fun j => by simpa [occursAt] using h (j + 1))
      by_cases hc : c = '\n'
      · by_cases hd : d = '\n'
        · subst hc; subst hd; simp [occursAt, List.isPrefixOf] at h0
        · simp [captureUpToBlank, hd, htail]
      · simp [captureUpToBlank, hc, htail]

theorem splitOnNl_cons_nl (body : List Char) :
    splitOnNl ('\n' :: body) = [] :: splitOnNl body := by
  simp [splitOnNl]

theorem processRecLines_cons_nl (body : List Char) :
    processRecLines ('\n' :: body) = processRecLines body := by
  unfold processRecLines
  rw [splitOnNl_cons_nl, List.filter_cons]
  norm_num [trimChars]

theorem extractRecommendations_notFound {content : String}
    (h : ∀ j, isPrefixCI recsHeading (content.toList.drop j) = false) :
    extractRecommendations content = getDefaultRecommendations := by
  unfold extractRecommendations
  have hnone : findSubCI recsHeading content.toList = none := by
    cases hf : findSubCI recsHeading content.toList with
    | none => rfl
    | some i =>
      have := findSubBy_some_test hf
      rw [h i] at this
      cases this
  rw [hnone]

theorem extractRecommendations_found {content : String} {p : Nat}
    (hp : isPrefixCI recsHeading (content.toList.drop p) = true)
    (hmin : ∀ j, j < p → isPrefixCI recsHeading (content.toList.drop j) = false) :
    extractRecommendations content =
      processRecLines (captureUpToBlank (recTailAt content.toList p)) := by
  unfold extractRecommendations
  rw [show findSubCI recsHeading content.toList = some p from findSubBy_first hp hmin]

theorem recTailAt_decomp {cs pre hd lineRest rest2 : List Char}
    (hcs : cs = pre ++ hd ++ lineRest ++ '\n' :: rest2)
    (hhd : hd.length = recsHeading.length)
    (hline : ∀ c ∈ lineRest, (c != '\n') = true) :
    recTailAt cs pre.length = '\n' :: rest2 := by
  unfold recTailAt
  have h1 : cs.drop (pre.length + recsHeading.length) = lineRest ++ '\n' :: rest2 := by
    have h2 : cs = (pre ++ hd) ++ (lineRest ++ '\n' :: rest2) := by
      simp [hcs, List.append_assoc]
    rw [h2]
    exact List.drop_left' (by simp [hhd])
  rw [h1]
  show (lineRest ++ '\n' :: rest2).drop
    ((List.takeWhile (fun c => c != '\n') (lineRest ++ '\n' :: rest2)).length) = '\n' :: rest2
  rw [takeWhile_append_cons hline (by decide)]
  exact List.drop_left _ _

/-! ## Helper lemmas: the retry loop when every attempt fails -/

theorem fetchWithRetryGo_allFail {resp : Nat → Except String (Option String)}
    {E : Nat → String} (hE : ∀ n, attemptOnce resp n = .error (E n))
    (d : Nat) : ∀ remaining attempt,
    fetchWithRetryGo resp d attempt remaining =
      { result := .error (E (attempt + remaining))
        attempts := remaining + 1
        sleeps := (List.range' attempt remaining).map (fun n => d * n) } := by
  intro remaining
  induction remaining with
  | zero =>
    intro attempt
    unfold fetchWithRetryGo
    simp [hE attempt]
  | succ r ih =>
    intro attempt
    unfold fetchWithRetryGo
    simp only [hE attempt]
    rw [ih (attempt + 1)]
    have h1 : attempt + 1 + r = attempt + (r + 1) := by omega
    rw [List.range'_succ]
    simp [h1]

/-! ## Helper lemmas: non-emptiness of the rendered panels -/

theorem generateFallbackDiagram_ne_empty (m : String) : generateFallbackDiagram m ≠ "" := by
  intro h
  have h2 := congrArg String.length h
  rw [generateFallbackDiagram, String.length_append, String.length_append] at h2
  have h3 : 0 < fallbackPre.length := by decide
  have h4 : ("" : String).length = 0 := rfl
  omega

theorem wrapDiagram_ne_empty (content : Option String) : wrapDiagram content ≠ "" := by
  unfold wrapDiagram
  cases content with
  | none => exact generateFallbackDiagram_ne_empty _
  | some c =>
    by_cases hc : c = ""
    · simp [hc]
      exact generateFallbackDiagram_ne_empty _
    · simp [hc]
      intro h
      have h2 := congrArg String.length h
      rw [String.length_append, String.length_append] at h2
      have h3 : 0 < wrapPre.length := by decide
      have h4 : ("" : String).length = 0 := rfl
      omega

/-! ## Claim theorems -/

/-- C3: for every configuration with max attempts `m ≥ 1` and base delay `d`,
if every attempt fails (non-2xx status, transport error or per-attempt
timeout, all modelled as an `.error` outcome of the network oracle), the
completion client performs exactly `m` attempts, sleeping `d * n` after the
n-th failed attempt for n = 1, …, m-1 (linear, not exponential, backoff),
and then propagates the failure of the final (m-th) attempt; no attempt is
made once the budget is exhausted. -/
theorem fetchWithRetry_bounded_linear_backoff
    (resp : Nat → Except String (Option String)) (m d : Nat) (E : Nat → String)
    (hm : 1 ≤ m) (hfail : ∀ n, resp n = .error (E n)) :
    (fetchWithRetry resp m d).attempts = m ∧
    (fetchWithRetry resp m d).sleeps = (List.range' 1 (m - 1)).map (fun n => d * n) ∧
    (fetchWithRetry resp m d).result = .error (E m) := by
  have hE : ∀ n, attemptOnce resp n = .error (E n) := by
    intro n
    unfold attemptOnce
    rw [hfail n]
  unfold fetchWithRetry
  rw [fetchWithRetryGo_allFail hE d (m - 1) 1]
  have h1 : 1 + (m - 1) = m := by omega
  rw [h1]
  refine ⟨?_, rfl, rfl⟩
  show m - 1 + 1 = m
  omega

/-- Witness for C3 at a concrete failing oracle with `m = 3`, `d = 100`. -/
theorem fetchWithRetry_bounded_linear_backoff_witness :
    (fetchWithRetry (fun _ => .error "boom") 3 100).attempts = 3 ∧
    (fetchWithRetry (fun _ => .error "boom") 3 100).sleeps =
      (List.range' 1 (3 - 1)).map (fun n => 100 * n) ∧
    (fetchWithRetry (fun _ => .error "boom") 3 100).result = .error "boom" :=
  fetchWithRetry_bounded_linear_backoff (fun _ => .error "boom") 3 100
    (fun _ => "boom") (by omega) (fun _ => rfl)

/-- C2 counterexample: against the claim that a successful (2xx) response
whose body lacks a non-empty assistant message is NOT retried, a constantly
malformed oracle with budget 3 produces 3 attempts, not 1; the
malformed-response failure is only signalled after the budget is
exhausted. -/
theorem malformed_response_retry_counterexample :
    (fetchWithRetry (fun _ => .ok none) 3 1000).result =
      .error "Invalid AI response format" ∧
    (fetchWithRetry (fun _ => .ok none) 3 1000).attempts = 3 ∧
    ¬ (fetchWithRetry (fun _ => .ok none) 3 1000).attempts = 1 := by
  exact ⟨rfl, rfl, by decide⟩

/-- C2 amended: a successful (2xx) response whose body lacks a non-empty
assistant message field is treated like any other attempt failure: it is
retried until the attempt budget `m` is exhausted, and the client then
signals the malformed-response failure ("Invalid AI response format"). -/
theorem malformed_response_retried_to_exhaustion
    (resp : Nat → Except String (Option String)) (m d : Nat) (hm : 1 ≤ m)
    (hmal : ∀ n, resp n = .ok none ∨ resp n = .ok (some "")) :
    (fetchWithRetry resp m d).attempts = m ∧
    (fetchWithRetry resp m d).result = .error "Invalid AI response format" := by
  have hE : ∀ n, attemptOnce resp n = .error "Invalid AI response format" := by
    intro n
    unfold attemptOnce
    rcases hmal n with h | h <;> rw [h] <;> rfl
  unfold fetchWithRetry
  rw [fetchWithRetryGo_allFail (E := fun _ => "Invalid AI response format") hE d (m - 1) 1]
  refine ⟨?_, rfl⟩
  show m - 1 + 1 = m
  omega

/-- Witness for the amended C2 at a concrete malformed oracle with
`m = 4`. -/
theorem malformed_response_retried_to_exhaustion_witness :
    (fetchWithRetry (fun _ => .ok none) 4 50).attempts = 4 ∧
    (fetchWithRetry (fun _ => .ok none) 4 50).result =
      .error "Invalid AI response format" :=
  malformed_response_retried_to_exhaustion (fun _ => .ok none) 4 50 (by omega)
    (fun _ => Or.inl rfl)

/-- C1 counterexample: a successfully completed analysis of the raw text
"hello" (a successful call whose extraction yields no diagram, so the
"no diagram generated" fallback panel is substituted) still carries
`diagramSource = true`, contradicting the claim that `diagramSource` is
true only when `htmlSchema` came from the model and false in that inner
fallback case. -/
theorem diagramSource_fallback_panel_counterexample :
    extractHtmlContent "hello" = none ∧
    analyzeRepository "key" (some ⟨none, none, none, none⟩)
        (fun _ => .ok (some "hello")) 3 1000 =
      { summary := "hello"
        htmlSchema := generateFallbackDiagram "No architecture diagram generated"
        recommendations := getDefaultRecommendations
        diagramSource := true
        rawAnalysis := some "hello" } := by
  exact ⟨rfl, by decide⟩

/-- C1 amended: every successfully completed analysis carries
`diagramSource = true` — including when extraction yielded no diagram and
the fallback "no diagram generated" panel was substituted for `htmlSchema`
— and `diagramSource = false` holds exactly on the overall-failure fallback
result. -/
theorem diagramSource_always_true_on_success (analysis : ParsedResponse) (e : String) :
    (formatAnalysisResults analysis).diagramSource = true ∧
    (generateFallbackResponse e).diagramSource = false :=
  ⟨rfl, rfl⟩

theorem analyzeRepositoryE_ok_shape {apiKey : String} {repoInfo : Option RepoInfo}
    {resp : Nat → Except String (Option String)} {m d : Nat} {r : AnalysisResult}
    (h : analyzeRepositoryE apiKey repoInfo resp m d = .ok r) :
    ∃ a, r = formatAnalysisResults a := by
  unfold analyzeRepositoryE at h
  cases h1 : validateApiKey apiKey with
  | error e => rw [h1] at h; exact Except.noConfusion h
  | ok u =>
    rw [h1] at h
    cases h2 : validateRepoInfo repoInfo with
    | error e => rw [h2] at h; exact Except.noConfusion h
    | ok u2 =>
      rw [h2] at h
      cases h3 : (fetchWithRetry resp m d).result with
      | error e => rw [h3] at h; exact Except.noConfusion h
      | ok a =>
        rw [h3] at h
        cases h
        exact ⟨a, rfl⟩

theorem extractRecommendations_length_le (content : String) :
    (extractRecommendations content).length ≤ 3 := by
  unfold extractRecommendations
  cases findSubCI recsHeading content.toList with
  | none => exact le_refl 3
  | some i =>
    unfold processRecLines
    exact List.length_take_le _ _

/-- C4: for every metadata input and every failure mode at any stage (missing
API credential, invalid metadata object — including a metadata fetch that
produced no object — retry exhaustion, or a malformed completion body), the
orchestrator never throws: its result always carries a non-empty
`htmlSchema`, each listed failure mode makes the inner pipeline fail, and
any inner failure `e` yields the full fallback result whose summary states
the failure reason, whose `htmlSchema` is the (non-empty) fallback warning
panel for `e`, whose recommendations are the fixed triad, and whose
`diagramSource` is false. -/
theorem analyzeRepository_total_fallback (apiKey : String) (repoInfo : Option RepoInfo)
    (resp : Nat → Except String (Option String)) (m d : Nat) :
    (analyzeRepository apiKey repoInfo resp m d).htmlSchema ≠ "" ∧
    ((apiKey = "" ∨ repoInfo = none ∨ (∀ n, ∃ er, resp n = .error er)) →
      ∃ e, analyzeRepositoryE apiKey repoInfo resp m d = .error e) ∧
    (∀ e, analyzeRepositoryE apiKey repoInfo resp m d = .error e →
      analyzeRepository apiKey repoInfo resp m d = generateFallbackResponse e ∧
      (analyzeRepository apiKey repoInfo resp m d).summary = "Analysis failed: " ++ e ∧
      (analyzeRepository apiKey repoInfo resp m d).htmlSchema = generateFallbackDiagram e ∧
      (analyzeRepository apiKey repoInfo resp m d).recommendations =
        ["Verify API configuration", "Check repository accessibility",
         "Retry analysis later"] ∧
      (analyzeRepository apiKey repoInfo resp m d).diagramSource = false) := by
  refine ⟨?_, ?_, ?_⟩
  · unfold analyzeRepository
    cases he : analyzeRepositoryE apiKey repoInfo resp m d with
    | error e => exact generateFallbackDiagram_ne_empty e
    | ok r =>
      obtain ⟨a, rfl⟩ := analyzeRepositoryE_ok_shape he
      exact wrapDiagram_ne_empty a.diagram
  · intro hcase
    by_cases hak : apiKey = ""
    · subst hak
      exact ⟨"DeepSeek API key not configured", rfl⟩
    · have hok : validateApiKey apiKey = .ok () := by
        unfold validateApiKey
        simp [hak]
      rcases hcase with h | h | h
      · exact absurd h hak
      · subst h
        refine ⟨"Invalid repository information", ?_⟩
        unfold analyzeRepositoryE
        rw [hok]
        rfl
      · cases repoInfo with
        | none =>
          refine ⟨"Invalid repository information", ?_⟩
          unfold analyzeRepositoryE
          rw [hok]
          rfl
        | some info =>
          choose E hE using h
          have hE2 : ∀ n, attemptOnce resp n = .error (E n) := by
            intro n
            unfold attemptOnce
            rw [hE n]
          refine ⟨E (1 + (m - 1)), ?_⟩
          unfold analyzeRepositoryE
          rw [hok]
          show (match (fetchWithRetry resp m d).result with
            | .error e => Except.error e
            | .ok analysis => Except.ok (formatAnalysisResults analysis)) =
            Except.error (E (1 + (m - 1)))
          unfold fetchWithRetry
          rw [fetchWithRetryGo_allFail hE2 d (m - 1) 1]
  · intro e he
    unfold analyzeRepository
    rw [he]
    exact ⟨rfl, rfl, rfl, rfl, rfl⟩

/-- Witness for C4: with the credential absent, the pipeline fails and the
full fallback result is produced. -/
theorem analyzeRepository_total_fallback_witness :
    (∃ e, analyzeRepositoryE "" (some ⟨none, none, none, none⟩)
        (fun _ => .ok (some "x")) 3 1000 = .error e) ∧
    analyzeRepository "" (some ⟨none, none, none, none⟩)
        (fun _ => .ok (some "x")) 3 1000 =
      generateFallbackResponse "DeepSeek API key not configured" :=
  ⟨(analyzeRepository_total_fallback "" (some ⟨none, none, none, none⟩)
      (fun _ => .ok (some "x")) 3 1000).2.1 (Or.inl rfl),
   ((analyzeRepository_total_fallback "" (some ⟨none, none, none, none⟩)
      (fun _ => .ok (some "x")) 3 1000).2.2 "DeepSeek API key not configured" rfl).1⟩

/-- C8: the recommendations sequence has length at most 3 in every outcome:
for every orchestrator result (success, heading-extracted or defaulted, and
total-failure fallback) and for every raw text given to the extractor. -/
theorem recommendations_length_le_three (apiKey : String) (repoInfo : Option RepoInfo)
    (resp : Nat → Except String (Option String)) (m d : Nat) (content : String) :
    (analyzeRepository apiKey repoInfo resp m d).recommendations.length ≤ 3 ∧
    (extractRecommendations content).length ≤ 3 := by
  refine ⟨?_, extractRecommendations_length_le content⟩
  unfold analyzeRepository
  cases he : analyzeRepositoryE apiKey repoInfo resp m d with
  | error e => exact le_refl 3
  | ok r =>
    obtain ⟨a, rfl⟩ := analyzeRepositoryE_ok_shape he
    exact extractRecommendations_length_le a.rawContent

theorem noFencedDecomp_of_findSub_none {fenceTag cs : List Char}
    (h : findSub fenceTag cs = none) :
    ∀ pre mid post : List Char, cs ≠ pre ++ fenceTag ++ mid ++ fence3 ++ post := by
  intro pre mid post hcs
  have hfalse := findSubBy_none h pre.length
  have hdrop : cs.drop pre.length = fenceTag ++ (mid ++ fence3 ++ post) := by
    have h2 : cs = pre ++ (fenceTag ++ (mid ++ fence3 ++ post)) := by
      simp [hcs, List.append_assoc]
    rw [h2, List.drop_left]
  rw [hdrop] at hfalse
  rw [isPrefixOf_append_self] at hfalse
  cases hfalse

theorem checkDivAt_at_decomp {attrs inner post2 : List Char}
    (hattrs : ∀ c ∈ attrs, c ≠ '>')
    (hmarker : ∃ a b, attrs = a ++ classMarker ++ b)
    (hinner : ∀ j, j < inner.length →
      occursAt ("</div>".toList) (inner ++ "</div>".toList ++ post2) j = false) :
    checkDivAt ("<div".toList ++ attrs ++ '>' :: (inner ++ "</div>".toList ++ post2)) =
      some ("<div".toList ++ attrs ++ '>' :: (inner ++ "</div>".toList)) := by
  have hattrs2 : ∀ c ∈ attrs, (c != '>') = true := fun c hc => by
    simpa using hattrs c hc
  have hm2 : (findSub classMarker attrs).isSome = true := by
    obtain ⟨a, b, hab⟩ := hmarker
    apply findSubBy_isSome (p := a.length)
    show classMarker.isPrefixOf (attrs.drop a.length) = true
    rw [hab, List.append_assoc, List.drop_left]
    exact isPrefixOf_append_self _ _
  rw [checkDivAt_eval hattrs2 hm2]
  have hfind : findSub ("</div>".toList) (inner ++ "</div>".toList ++ post2) =
      some inner.length := by
    apply findSubBy_first
    · show ("</div>".toList).isPrefixOf
        ((inner ++ "</div>".toList ++ post2).drop inner.length) = true
      rw [List.append_assoc, List.drop_left]
      exact isPrefixOf_append_self _ _
    · intro j hj
      simpa [occursAt] using hinner j hj
  simp only [hfind]
  have htake : (inner ++ "</div>".toList ++ post2).take inner.length = inner := by
    rw [List.append_assoc, List.take_left]
  rw [htake]

theorem checkDivAt_isSome_at_decomp {attrs inner post2 : List Char}
    (hattrs : ∀ c ∈ attrs, c ≠ '>')
    (hmarker : ∃ a b, attrs = a ++ classMarker ++ b) :
    (checkDivAt
      ("<div".toList ++ attrs ++ '>' :: (inner ++ "</div>".toList ++ post2))).isSome =
      true := by
  have hattrs2 : ∀ c ∈ attrs, (c != '>') = true := fun c hc => by
    simpa using hattrs c hc
  have hm2 : (findSub classMarker attrs).isSome = true := by
    obtain ⟨a, b, hab⟩ := hmarker
    apply findSubBy_isSome (p := a.length)
    show classMarker.isPrefixOf (attrs.drop a.length) = true
    rw [hab, List.append_assoc, List.drop_left]
    exact isPrefixOf_append_self _ _
  rw [checkDivAt_eval hattrs2 hm2]
  have hsome : (findSub ("</div>".toList) (inner ++ "</div>".toList ++ post2)).isSome =
      true := by
    apply findSubBy_isSome (p := inner.length)
    show ("</div>".toList).isPrefixOf
      ((inner ++ "</div>".toList ++ post2).drop inner.length) = true
    rw [List.append_assoc, List.drop_left]
    exact isPrefixOf_append_self _ _
  obtain ⟨k, hk⟩ := Option.isSome_iff_exists.mp hsome
  simp only [hk]
  rfl

theorem noDivDecomp_of_scan_none {cs : List Char}
    (h : findSubBy (fun s => (checkDivAt s).isSome) cs = none) :
    ∀ pre attrs inner post2 : List Char, (∀ c ∈ attrs, c ≠ '>') →
      (∃ a b, attrs = a ++ classMarker ++ b) →
      cs ≠ pre ++ ("<div".toList ++ attrs ++ '>' :: (inner ++ "</div>".toList ++ post2)) := by
  intro pre attrs inner post2 hattrs hmarker hcs
  have hfalse := findSubBy_none h pre.length
  have hdrop : cs.drop pre.length =
      "<div".toList ++ attrs ++ '>' :: (inner ++ "</div>".toList ++ post2) := by
    rw [hcs, List.drop_left]
  rw [hdrop] at hfalse
  rw [checkDivAt_isSome_at_decomp hattrs hmarker] at hfalse
  cases hfalse

/-- C5: diagram extraction.  (1) If the raw text contains a fenced HTML
block — it decomposes around the first opening fence and that block's
lazily matched interior — the extracted diagram is the block's trimmed
interior.  (2) Otherwise, if it contains an element carrying the literal
class marker "architecture-diagram" — it decomposes around the first
position where the div pattern matches, the match running to the first
subsequent close tag — the diagram is that whole first match.  (3) If
neither pattern occurs, the diagram is `none` (absent, not an error). -/
theorem extractHtmlContent_spec (content : String) :
    (∀ pre mid post : List Char,
      content.toList = pre ++ fenceHtml ++ mid ++ fence3 ++ post →
      (∀ j, j < pre.length → occursAt fenceHtml content.toList j = false) →
      (∀ j, j < mid.length → occursAt fence3 (mid ++ fence3 ++ post) j = false) →
      extractHtmlContent content = some (String.mk (trimChars mid))) ∧
    (∀ pre attrs inner post2 : List Char,
      (∀ pre2 mid post : List Char,
        content.toList ≠ pre2 ++ fenceHtml ++ mid ++ fence3 ++ post) →
      content.toList =
        pre ++ ("<div".toList ++ attrs ++ '>' :: (inner ++ "</div>".toList ++ post2)) →
      (∀ c ∈ attrs, c ≠ '>') →
      (∃ a b, attrs = a ++ classMarker ++ b) →
      (∀ j, j < inner.length →
        occursAt ("</div>".toList) (inner ++ "</div>".toList ++ post2) j = false) →
      (∀ j, j < pre.length → checkDivAt (content.toList.drop j) = none) →
      extractHtmlContent content =
        some (String.mk ("<div".toList ++ attrs ++ '>' :: (inner ++ "</div>".toList)))) ∧
    ((∀ pre mid post : List Char,
        content.toList ≠ pre ++ fenceHtml ++ mid ++ fence3 ++ post) →
     (∀ pre attrs inner post2 : List Char, (∀ c ∈ attrs, c ≠ '>') →
        (∃ a b, attrs = a ++ classMarker ++ b) →
        content.toList ≠
          pre ++ ("<div".toList ++ attrs ++ '>' :: (inner ++ "</div>".toList ++ post2))) →
     extractHtmlContent content = none) := by
  refine ⟨?_, ?_, ?_⟩
  · intro pre mid post hdecomp hfirst hmid
    unfold extractHtmlContent
    rw [fencedExtract_of_decomp hdecomp hfirst hmid]
  · intro pre attrs inner post2 hNoF hdecomp hattrs hmarker hinner hfirst
    unfold extractHtmlContent
    rw [fencedExtract_none_of_noDecomp hNoF]
    have hdrop : content.toList.drop pre.length =
        "<div".toList ++ attrs ++ '>' :: (inner ++ "</div>".toList ++ post2) := by
      rw [hdecomp, List.drop_left]
    have hcheck : checkDivAt (content.toList.drop pre.length) =
        some ("<div".toList ++ attrs ++ '>' :: (inner ++ "</div>".toList)) := by
      rw [hdrop]
      exact checkDivAt_at_decomp hattrs hmarker hinner
    rw [divFallback_of_first hcheck hfirst]
    rfl
  · intro hNoF hNoDiv
    unfold extractHtmlContent
    rw [fencedExtract_none_of_noDecomp hNoF]
    have h2 : ∀ pre attrs inner post2 : List Char,
        (∀ c ∈ attrs, (c != '>') = true) →
        (∃ a b, attrs = a ++ classMarker ++ b) →
        content.toList ≠
          pre ++ ("<div".toList ++ attrs ++ '>' :: (inner ++ "</div>".toList ++ post2)) :=
      fun pre attrs inner post2 hb hm =>
        hNoDiv pre attrs inner post2 (fun c hc => by simpa using hb c hc) hm
    rw [divFallback_none_of_noDecomp h2]
    rfl

/-- Witness for C5: the three cases at concrete raw texts — a fenced HTML
block, a bare architecture-diagram element, and a text with neither. -/
theorem extractHtmlContent_spec_witness :
    extractHtmlContent "x```html <b>Y</b> ```y" = some "<b>Y</b>" ∧
    extractHtmlContent "A<div class=\"architecture-diagram\">B</div>C" =
      some "<div class=\"architecture-diagram\">B</div>" ∧
    extractHtmlContent "hello" = none := by
  refine ⟨?_, ?_, ?_⟩
  · have h := (extractHtmlContent_spec "x```html <b>Y</b> ```y").1
      "x".toList " <b>Y</b> ".toList "y".toList (by decide) (by decide) (by decide)
    exact h.trans (by decide)
  · have h := (extractHtmlContent_spec "A<div class=\"architecture-diagram\">B</div>C").2.1
      "A".toList " class=\"architecture-diagram\"".toList "B".toList "C".toList
      (noFencedDecomp_of_findSub_none (by decide))
      (by decide) (by decide) ⟨" ".toList, [], by decide⟩ (by decide) (by decide)
    exact h.trans (by decide)
  · exact (extractHtmlContent_spec "hello").2.2
      (noFencedDecomp_of_findSub_none (by decide))
      (noDivDecomp_of_scan_none (by decide))

/-- C7 counterexample: the raw text "\nabc" is non-empty and contains no
fenced text block, so by the claim the summary should be its first line
(the empty string before the newline) — but the source's falsy check maps
any empty first line to "Technical summary", which the claim reserves for
empty raw text only. -/
theorem extractTextSummary_empty_first_line_counterexample :
    fencedExtract fenceText ("\nabc".toList) = none ∧
    "\nabc" ≠ "" ∧
    "\nabc".toList.takeWhile (fun c => c != '\n') = [] ∧
    extractTextSummary "\nabc" = "Technical summary" ∧
    extractTextSummary "\nabc" ≠
      String.mk ("\nabc".toList.takeWhile (fun c => c != '\n')) := by
  refine ⟨by decide, by decide, by decide, by decide, by decide⟩

/-- C7 amended: if the raw text contains a fenced text block (decomposed
around the first opening fence and its lazily matched interior), the
summary is that block's trimmed interior; otherwise the summary is the
first line of the raw text when that line is non-empty, and the literal
"Technical summary" when the first line is empty (in particular when the
raw text itself is empty). -/
theorem extractTextSummary_spec (content : String) :
    (∀ pre mid post : List Char,
      content.toList = pre ++ fenceText ++ mid ++ fence3 ++ post →
      (∀ j, j < pre.length → occursAt fenceText content.toList j = false) →
      (∀ j, j < mid.length → occursAt fence3 (mid ++ fence3 ++ post) j = false) →
      extractTextSummary content = String.mk (trimChars mid)) ∧
    ((∀ pre mid post : List Char,
        content.toList ≠ pre ++ fenceText ++ mid ++ fence3 ++ post) →
      (content.toList.takeWhile (fun c => c != '\n') ≠ [] →
        extractTextSummary content =
          String.mk (content.toList.takeWhile (fun c => c != '\n'))) ∧
      (content.toList.takeWhile (fun c => c != '\n') = [] →
        extractTextSummary content = "Technical summary")) := by
  constructor
  · intro pre mid post hdecomp hfirst hmid
    unfold extractTextSummary
    rw [fencedExtract_of_decomp hdecomp hfirst hmid]
  · intro hNoF
    unfold extractTextSummary
    rw [fencedExtract_none_of_noDecomp hNoF]
    constructor
    · intro hne
      have : (content.toList.takeWhile (fun c => c != '\n')).isEmpty = false := by
        cases hl : content.toList.takeWhile (fun c => c != '\n') with
        | nil => exact absurd hl hne
        | cons a l => rfl
      simp only [this, Bool.false_eq_true, if_false]
    · intro heq
      simp only [heq, List.isEmpty_nil, if_true]

/-- Witness for C7: a fenced text block, a plain first line, and an empty
first line at concrete raw texts. -/
theorem extractTextSummary_spec_witness :
    extractTextSummary "q```text hi ```z" = "hi" ∧
    extractTextSummary "first line\nsecond" = "first line" ∧
    extractTextSummary "" = "Technical summary" := by
  refine ⟨?_, ?_, ?_⟩
  · have h := (extractTextSummary_spec "q```text hi ```z").1
      "q".toList " hi ".toList "z".toList (by decide) (by decide) (by decide)
    exact h.trans (by decide)
  · have h := ((extractTextSummary_spec "first line\nsecond").2
      (noFencedDecomp_of_findSub_none (by decide))).1 (by decide)
    exact h.trans (by decide)
  · exact ((extractTextSummary_spec "").2
      (noFencedDecomp_of_findSub_none (by decide))).2 (by decide)

/-- C6 counterexample: a raw text headed by the English word
"Recommendations" does not match the source's case-insensitive search for
the French literal "Recommandation", so the extractor falls back to the
three defaults instead of parsing the listed items as the claim
requires. -/
theorem extractRecommendations_english_counterexample :
    extractRecommendations "Recommendations\n- Add docs\n- Fix tests" =
      getDefaultRecommendations ∧
    getDefaultRecommendations ≠ ["Add docs", "Fix tests"] ∧
    extractRecommendations "Recommendations\n- Add docs\n- Fix tests" ≠
      ["Add docs", "Fix tests"] := by
  refine ⟨by decide, by decide, by decide⟩

/-- C6 amended: recommendations extraction searches case-insensitively for
the French-spelled heading literal "Recommandation" (optional trailing "s"
and the rest of the heading line are consumed without being captured);
the run of text after that line up to the first blank line (first part) or
to the end of input (second part) is split into lines, lines blank after
trimming are dropped, a leading "- " marker is stripped and each line
trimmed, and at most the first 3 are kept; when the heading does not occur,
the result is exactly the three fixed defaults in the literal order
documentation, tests, optimization. -/
theorem extractRecommendations_spec (content : String) :
    (∀ p : Nat, ∀ pre hd lineRest body post : List Char,
      isPrefixCI recsHeading (content.toList.drop p) = true →
      (∀ j, j < p → isPrefixCI recsHeading (content.toList.drop j) = false) →
      content.toList = pre ++ hd ++ lineRest ++ '\n' :: (body ++ '\n' :: '\n' :: post) →
      pre.length = p → hd.length = recsHeading.length →
      (∀ c ∈ lineRest, c ≠ '\n') →
      (∀ j, j < body.length + 1 →
        occursAt ['\n', '\n'] ('\n' :: (body ++ '\n' :: '\n' :: post)) j = false) →
      extractRecommendations content = processRecLines body) ∧
    (∀ p : Nat, ∀ pre hd lineRest body : List Char,
      isPrefixCI recsHeading (content.toList.drop p) = true →
      (∀ j, j < p → isPrefixCI recsHeading (content.toList.drop j) = false) →
      content.toList = pre ++ hd ++ lineRest ++ '\n' :: body →
      pre.length = p → hd.length = recsHeading.length →
      (∀ c ∈ lineRest, c ≠ '\n') →
      (∀ j, occursAt ['\n', '\n'] ('\n' :: body) j = false) →
      extractRecommendations content = processRecLines body) ∧
    ((∀ j, isPrefixCI recsHeading (content.toList.drop j) = false) →
      extractRecommendations content =
        [ "Documentation: Ajouter des commentaires pour les fonctions principales",
          "Tests: Implémenter des tests unitaires pour les modules critiques",
          "Optimisation: Analyser les performances des composants clés" ]) := by
  refine ⟨?_, ?_, ?_⟩
  · intro p pre hd lineRest body post hp hmin hdecomp hplen hhd hline hnb
    subst hplen
    rw [extractRecommendations_found hp hmin]
    rw [recTailAt_decomp hdecomp hhd (fun c hc => by simpa using hline c hc)]
    have hsplit : ('\n' :: (body ++ '\n' :: '\n' :: post)) =
        ('\n' :: body) ++ '\n' :: '\n' :: post := by simp
    rw [hsplit]
    rw [captureUpToBlank_stops (fun j hj => by
      have h2 := hnb j (by simpa using hj)
      rw [hsplit] at h2
      exact h2)]
    exact processRecLines_cons_nl body
  · intro p pre hd lineRest body hp hmin hdecomp hplen hhd hline hnb
    subst hplen
    rw [extractRecommendations_found hp hmin]
    rw [recTailAt_decomp hdecomp hhd (fun c hc => by simpa using hline c hc)]
    rw [captureUpToBlank_all hnb]
    exact processRecLines_cons_nl body
  · intro h
    rw [extractRecommendations_notFound h]
    rfl

/-- Witness for C6: the French heading followed by two items and a blank
line, the French heading running to end of input, and a text with no
heading at all. -/
theorem extractRecommendations_spec_witness :
    extractRecommendations "Recommandations:\n- a\n- b\n\nrest" = ["a", "b"] ∧
    extractRecommendations "Recommandations:\n- c" = ["c"] ∧
    extractRecommendations "nothing here" =
      [ "Documentation: Ajouter des commentaires pour les fonctions principales",
        "Tests: Implémenter des tests unitaires pour les modules critiques",
        "Optimisation: Analyser les performances des composants clés" ] := by
  refine ⟨?_, ?_, ?_⟩
  · have h := (extractRecommendations_spec "Recommandations:\n- a\n- b\n\nrest").1
      0 [] "Recommandation".toList "s:".toList "- a\n- b".toList "rest".toList
      (by decide) (by omega) (by decide) (by decide) (by decide) (by decide) (by decide)
    exact h.trans (by decide)
  · have h := (extractRecommendations_spec "Recommandations:\n- c").2.1
      0 [] "Recommandation".toList "s:".toList "- c".toList
      (by decide) (by omega) (by decide) (by decide) (by decide) (by decide)
      (fun j => by
        have : ∀ j, j < 5 → occursAt ['\n', '\n'] ('\n' :: ("- c".toList)) j = false := by
          decide
        by_cases hj : j < 5
        · exact this j hj
        · unfold occursAt
          rw [List.drop_eq_nil_of_le (by simp; omega)]
          rfl)
    exact h.trans (by decide)
  · exact ((extractRecommendations_spec "nothing here").2.2
      (findSubBy_none (by decide : findSubCI recsHeading ("nothing here".toList) = none)))

/-- C10: when the recommendations heading occurs (first case-insensitive
occurrence at index `p`) but the captured run after the heading line
contains no line that is non-blank after trimming, the extracted list is
empty — the three defaults are substituted only when the heading is
entirely absent, not when it is present with empty content. -/
theorem recommendations_empty_when_heading_bare (content : String) (p : Nat)
    (hp : isPrefixCI recsHeading (content.toList.drop p) = true)
    (hmin : ∀ j, j < p → isPrefixCI recsHeading (content.toList.drop j) = false)
    (hblank : ∀ r ∈ splitOnNl (captureUpToBlank (recTailAt content.toList p)),
      (trimChars r).length = 0) :
    extractRecommendations content = [] ∧
    extractRecommendations content ≠ getDefaultRecommendations := by
  have h1 := extractRecommendations_found hp hmin
  have h2 : processRecLines (captureUpToBlank (recTailAt content.toList p)) = [] := by
    unfold processRecLines
    have h3 : (splitOnNl (captureUpToBlank (recTailAt content.toList p))).filter
        (fun r => (trimChars r).length != 0) = [] := by
      rw [List.filter_eq_nil_iff]
      intro a ha
      simp [hblank a ha]
    rw [h3]
    rfl
  rw [h1, h2]
  exact ⟨rfl, by decide⟩

/-- Witness for C10: the heading immediately followed by a blank line
yields the empty list, not the defaults. -/
theorem recommendations_empty_when_heading_bare_witness :
    extractRecommendations "Recommandations:\n\nxyz" = [] ∧
    extractRecommendations "Recommandations:\n\nxyz" ≠ getDefaultRecommendations :=
  recommendations_empty_when_heading_bare "Recommandations:\n\nxyz" 0
    (by decide) (fun j hj => absurd hj (Nat.not_lt_zero j)) (by decide)

/-- C9 counterexample: the spec's data model gives `sizeKiB` as a number,
the input-over-1024 value rounded to 0.1; for an upstream size of 2048 that
numeral is "2.0", but `formatRepoData` renders the string "2.0 MB" — the
divided size is labelled megabytes (the upstream field is in KB), not
KiB. -/
theorem formatRepoData_size_unit_counterexample :
    (formatRepoData (fun s => s) sampleRepoPayload).size = "2.0 MB" ∧
    (formatRepoData (fun s => s) sampleRepoPayload).size ≠ "2.0" := by
  exact ⟨rfl, by decide⟩

/-- C9 amended: `formatRepoData` normalizes an absent license to `null`,
absent topics to the empty sequence, formats both dates with the locale
date formatter, and renders the size as the upstream size divided by 1024
and rounded to the nearest tenth (ties up), written with one decimal digit
and an " MB" unit label. -/
theorem formatRepoData_normalization (f : String → String) (d : GhRepoData) :
    (d.license = none → (formatRepoData f d).license = none) ∧
    (d.topics = none → (formatRepoData f d).topics = []) ∧
    (formatRepoData f d).createdAt = f d.createdAt ∧
    (formatRepoData f d).updatedAt = f d.updatedAt ∧
    (∃ n : Nat, (formatRepoData f d).size =
        toString (n / 10) ++ "." ++ toString (n % 10) ++ " MB" ∧
      2048 * n ≤ 20 * d.size + 1024 ∧ 20 * d.size < 2048 * n + 1024) := by
  refine ⟨?_, ?_, rfl, rfl, ?_⟩
  · intro h
    simp [formatRepoData, h]
  · intro h
    simp [formatRepoData, h]
  · refine ⟨(10 * d.size + 512) / 1024, rfl, by omega, by omega⟩

/-- Witness for C9 at the sample payload (absent license, absent topics,
size 2048). -/
theorem formatRepoData_normalization_witness :
    (formatRepoData (fun s => s) sampleRepoPayload).license = none ∧
    (formatRepoData (fun s => s) sampleRepoPayload).topics = [] ∧
    (∃ n : Nat, (formatRepoData (fun s => s) sampleRepoPayload).size =
        toString (n / 10) ++ "." ++ toString (n % 10) ++ " MB" ∧
      2048 * n ≤ 20 * 2048 + 1024 ∧ 20 * 2048 < 2048 * n + 1024) :=
  ⟨(formatRepoData_normalization (fun s => s) sampleRepoPayload).1 rfl,
   (formatRepoData_normalization (fun s => s) sampleRepoPayload).2.1 rfl,
   (formatRepoData_normalization (fun s => s) sampleRepoPayload).2.2.2.2⟩
